import Mathlib

/-!
Shallow embedding of the playback scheduler of a tracker-style step
sequencer (src/src/store/modules/sequencer-module.js).  Audio times are
modelled as exact rationals.  A JS channel array of step slots is a
`List Slot` where `none` stands for an empty slot (the `0` placeholder or
an `undefined` read).  The per-channel voice queue (`@/utils/linked-list`)
is modelled as a `List Event` with the head at the front, appends at the
tail (the FIFO contract of the Voice Queue).  Commands dispatched to the
`AudioService` are recorded as an explicit emission trace.
-/

namespace Sequencer

/-- The scheduler-owned sub-record of an audio event (`event.seq`). -/
structure SeqInfo where
  startMeasure : Int
  startMeasureOffset : ℚ
  length : ℚ
  mpLength : ℚ
  playing : Bool
  deriving Repr, DecidableEq

/-- An audio event as the scheduler sees it: `action` is 0 for a
module-parameter change, 1 for noteOn, 2 for noteOff. -/
structure Event where
  action : Nat
  instrument : Nat
  recording : Bool
  seq : SeqInfo
  deriving Repr, DecidableEq

/-- A step slot of a channel: empty (`0` / `undefined`) or an event. -/
abbrev Slot := Option Event

/-- Modelled from the spec: the per-channel Voice Queue is a `LinkedList`
from `@/utils/linked-list`, whose source is not in the repository
snapshot; per the spec's Voice Queue contract it is a strict-FIFO
container with `append` at the tail, head peek and head removal, and a
`flush` that drops all entries — represented as a list with the head
first. -/
abbrev VoiceQueue := List Event

/-- A pattern: a step resolution and one slot list per channel. -/
structure Pattern where
  steps : Nat
  channels : List (List Slot)
  deriving Repr, DecidableEq

/-- The parts of the song the scheduler reads. -/
structure Song where
  tempo : ℚ
  patterns : List Pattern
  deriving Repr, DecidableEq

/-- Metronome sub-state touched by the sequencer store. -/
structure MetronomeState where
  enabled : Bool
  countIn : Bool
  countInComplete : Bool
  restore : Bool
  deriving Repr, DecidableEq

/-- The sequencer store state (the fields the scheduler mutates).
`activePattern` is an `Int` because `setPosition` can store a negative
index (no lower clamp in the source). `channels` is the channel list the
last position commit bound (`state.channels`). -/
structure SeqState where
  playing : Bool
  looping : Bool
  recording : Bool
  scheduleAheadTime : ℚ
  stepPrecision : Nat
  beatAmount : ℚ
  channelQueue : List VoiceQueue
  activePattern : Int
  measureStartTime : ℚ
  firstMeasureStartTime : ℚ
  currentStep : Nat
  nextNoteTime : ℚ
  channels : List (List Slot)
  metronome : MetronomeState
  deriving Repr, DecidableEq

/-- A command the scheduler sends to the audio layer. -/
inductive Emission where
  | noteOn (e : Event) (t : ℚ)
  | noteOff (e : Event) (t : ℚ)
  deriving Repr, DecidableEq

/-- JS array read `l[i]` with a (possibly negative) integer index:
`undefined` outside the range. -/
def listGetInt (l : List α) (i : Int) : Option α :=
  if 0 ≤ i then l.get? i.toNat else none

/-- `event.seq.mpLength` as computed at the top of `enqueueEvent`:
`patternDuration / eventPattern.steps`, or `0` when
`patterns[activePattern]` is `undefined`. -/
def mpLengthFor (song : Song) (beatAmount : ℚ) (activePattern : Int) : ℚ :=
  let patternDuration := (60 / song.tempo) * beatAmount
  match listGetInt song.patterns activePattern with
  | some p => patternDuration / (p.steps : ℚ)
  | none => 0

/-- The event mutation at the top of `enqueueEvent`: set `seq.playing`
(line 43) and `seq.mpLength` (line 53). -/
def markPlaying (song : Song) (beatAmount : ℚ) (activePattern : Int)
    (e : Event) : Event :=
  let mp := mpLengthFor song beatAmount activePattern
  { e with seq := { e.seq with playing := true, mpLength := mp } }

/-- `enqueueEvent(store, event, eventChannel)`: marks the event as playing,
computes `seq.mpLength`, emits its noteOn at `nextNoteTime`, drains the
channel's voice queue (emitting a noteOff per queued event at
`nextNoteTime`) unless the event is a module-parameter change, then either
appends a noteOn event to the queue or immediately emits its own noteOff
at `nextNoteTime + mpLength`.  Returns the updated event, the updated
queue and the emissions in dispatch order. -/
def enqueueEvent (song : Song) (beatAmount : ℚ) (activePattern : Int)
    (nextNoteTime : ℚ) (event : Event) (queue : List Event) :
    Event × List Event × List Emission :=
  let mp := mpLengthFor song beatAmount activePattern
  let event := markPlaying song beatAmount activePattern event
  let isNoteOn := event.action = 1
  let (queue, drainEms) :=
    if event.action ≠ 0 then
      (([] : List Event), queue.map (fun pe => Emission.noteOff pe nextNoteTime))
    else
      (queue, [])
  if isNoteOn then
    (event, queue ++ [event], Emission.noteOn event nextNoteTime :: drainEms)
  else
    (event, queue,
      Emission.noteOn event nextNoteTime :: drainEms
        ++ [Emission.noteOff event (nextNoteTime + mp)])

/-- The `setPlaying` mutation.  Starting with recording-and-count-in resets
the count-in and forces the metronome on, and always restarts from step 0
(the worker start/stop message has no observable state effect here).
Stopping flushes every voice queue without emissions. -/
def setPlaying (state : SeqState) (isPlaying : Bool) : SeqState :=
  if isPlaying then
    let metronome :=
      if state.recording ∧ state.metronome.countIn then
        { state.metronome with countInComplete := false, enabled := true }
      else state.metronome
    { state with playing := true, metronome := metronome, currentStep := 0 }
  else
    { state with playing := false,
                 channelQueue := state.channelQueue.map (fun _ => ([] : List Event)) }

/-- The `gotoNextPattern` mutation: advance unless already at the last
pattern. -/
def gotoNextPattern (song : Song) (state : SeqState) : SeqState :=
  if state.activePattern < (song.patterns.length : Int) - 1 then
    { state with activePattern := state.activePattern + 1 }
  else state

/-- Result of the `setPosition` mutation.  `threw = true` records the
JS `TypeError` raised when `patterns[pattern]` is `undefined` (negative
index): the fields assigned before that line keep their new values.
`drained` lists the events removed from the voice queues by the
pattern-0 flush, with the `seq.playing = false` mutation applied. -/
structure PosResult where
  state : SeqState
  emissions : List Emission
  drained : List Event
  threw : Bool
  deriving Repr, DecidableEq

/-- The `setPosition` mutation.  The upper clamp maps `pattern ≥
patterns.length` to `patterns.length - 1`; there is no lower clamp.  A
pattern change resets `currentStep`.  The cursor fields are synced to
`currentTime` (the caller always supplies it here; the
audio-context-default branch of the source is not needed by any claim),
`channels` is rebound to the newly active pattern's channels, and a move
to pattern 0 drains every voice queue, emitting a noteOff at
`currentTime` for each entry and clearing its `seq.playing`. -/
def setPosition (song : Song) (state : SeqState) (pattern : Int)
    (currentTime : ℚ) : PosResult :=
  let pattern :=
    if pattern ≥ (song.patterns.length : Int) then (song.patterns.length : Int) - 1
    else pattern
  let state :=
    if state.activePattern ≠ pattern then { state with currentStep := 0 } else state
  let state :=
    { state with
        activePattern := pattern,
        nextNoteTime := currentTime,
        measureStartTime := currentTime,
        firstMeasureStartTime :=
          currentTime - (pattern : ℚ) * (60 / song.tempo * state.beatAmount) }
  match listGetInt song.patterns pattern with
  | none => ⟨state, [], [], true⟩
  | some p =>
    let state := { state with channels := p.channels }
    if state.activePattern = 0 then
      let emissions :=
        (state.channelQueue.map
          (fun q => q.map (fun e => Emission.noteOff e currentTime))).flatten
      let drained :=
        (state.channelQueue.map
          (fun q => q.map
            (fun e => { e with seq := { e.seq with playing := false } }))).flatten
      ⟨{ state with channelQueue := state.channelQueue.map (fun _ => ([] : List Event)) },
        emissions, drained, false⟩
    else ⟨state, [], [], false⟩

/-- Result of one `step(store)` call. -/
structure StepResult where
  state : SeqState
  emissions : List Emission
  threw : Bool
  deriving Repr, DecidableEq

/-- The tail of the pattern-wrap branch of `step`: the `setPosition`
commit with the (possibly advanced) active pattern and the incremented
`nextNoteTime`, followed by the count-in completion block. -/
def stepCommit (song : Song) (audioCurrentTime : ℚ) (state : SeqState) : StepResult :=
  let pr := setPosition song state state.activePattern state.nextNoteTime
  if pr.threw then ⟨pr.state, pr.emissions, true⟩
  else
    let state := pr.state
    let state :=
      if state.recording ∧ state.metronome.countIn ∧ ¬state.metronome.countInComplete then
        { state with
            metronome := { state.metronome with
                             enabled := state.metronome.restore,
                             countInComplete := true },
            firstMeasureStartTime := audioCurrentTime,
            activePattern := 0 }
      else state
    ⟨state, pr.emissions, false⟩

/-- `step(store)`: advance `nextNoteTime` by one subdivision and
`currentStep` by one; at the end of the pattern wrap the step counter,
advance or reset the active pattern, optionally stop when the audio sink
records its output, commit the position and complete a pending count-in.
`audioIsRecording` is `AudioService.isRecording()` and `audioCurrentTime`
is the audio context's current time. -/
def step (song : Song) (audioIsRecording : Bool) (audioCurrentTime : ℚ)
    (state : SeqState) : StepResult :=
  let maxMeasure : Int := (song.patterns.length : Int) - 1
  let state :=
    { state with
        nextNoteTime :=
          state.nextNoteTime + ((60 / song.tempo) * 4) / (state.stepPrecision : ℚ) }
  let currentStep := state.currentStep + 1
  let state := { state with currentStep := currentStep }
  if currentStep = state.stepPrecision then
    let state := { state with currentStep := 0 }
    let nextPattern := state.activePattern + 1
    if nextPattern > maxMeasure then
      let state := { state with activePattern := 0 }
      if audioIsRecording ∧ ¬state.looping then
        ⟨setPlaying state false, [], false⟩
      else
        stepCommit song audioCurrentTime state
    else
      let state := if ¬state.looping then gotoNextPattern song state else state
      stepCommit song audioCurrentTime state
  else ⟨state, [], false⟩

/-- `n` successive `step` calls, threading the state and concatenating
the emissions (`threw` is the disjunction). -/
def stepIter (song : Song) (audioIsRecording : Bool) (audioCurrentTime : ℚ)
    (state : SeqState) : Nat → StepResult
  | 0 => ⟨state, [], false⟩
  | n + 1 =>
    let r := step song audioIsRecording audioCurrentTime state
    let r2 := stepIter song audioIsRecording audioCurrentTime r.state n
    ⟨r2.state, r.emissions ++ r2.emissions, (r.threw || r2.threw)⟩

/-- The store values one iteration of the `collect` while-loop reads:
they are fixed for the duration of one pass over the channels
(`compareTime = nextNoteTime - measureStartTime`). -/
structure ScanCtx where
  song : Song
  beatAmount : ℚ
  activePattern : Int
  nextNoteTime : ℚ
  compareTime : ℚ
  deriving Repr, DecidableEq

/-- The inner slot loop of `collect` for one channel (`while (channelStep--)`,
so the slot at the highest index is visited first): empty, recording or
foreign-measure slots are skipped; an in-range, not-yet-playing event is
enqueued (threading the channel's voice queue); an out-of-range event has
its `seq.playing` cleared.  Returns the updated slots, the updated queue
and the emissions in dispatch order. -/
def scanChannel (c : ScanCtx) : List Slot → List Event →
    List Slot × List Event × List Emission
  | [], queue => ([], queue, [])
  | slot :: rest, queue =>
    let (rest2, queue2, ems2) := scanChannel c rest queue
    match slot with
    | none => (none :: rest2, queue2, ems2)
    | some e =>
      if e.recording = true ∨ e.seq.startMeasure ≠ c.activePattern then
        (some e :: rest2, queue2, ems2)
      else if c.compareTime ≥ e.seq.startMeasureOffset ∧
              c.compareTime < e.seq.startMeasureOffset + e.seq.length then
        if e.seq.playing then (some e :: rest2, queue2, ems2)
        else
          let (e2, queue3, ems3) :=
            enqueueEvent c.song c.beatAmount c.activePattern c.nextNoteTime e queue2
          (some e2 :: rest2, queue3, ems2 ++ ems3)
      else
        (some { e with seq := { e.seq with playing := false } } :: rest2, queue2, ems2)

/-- A sequence of channel scans applied to one channel and its voice
queue, as successive `collect` iterations produce (each with its own
snapshot of the store values). -/
def applyScans : List ScanCtx → List Slot × List Event → List Slot × List Event
  | [], p => p
  | c :: cs, (slots, queue) =>
    let (slots2, queue2, _) := scanChannel c slots queue
    applyScans cs (slots2, queue2)

/-- Whether a slot holds an event with `seq.playing` set. -/
def slotPlaying : Slot → Bool
  | some e => e.seq.playing
  | none => false

/-- Number of events of a channel whose `seq.playing` is set. -/
def playingCount (slots : List Slot) : Nat :=
  slots.countP slotPlaying

/-- Per-event effect of one channel scan on the event record (the scan
rewrites each event independently of the voice queue). -/
def updEvent (c : ScanCtx) (e : Event) : Event :=
  if e.recording = true ∨ e.seq.startMeasure ≠ c.activePattern then e
  else if c.compareTime ≥ e.seq.startMeasureOffset ∧
          c.compareTime < e.seq.startMeasureOffset + e.seq.length then
    if e.seq.playing then e
    else markPlaying c.song c.beatAmount c.activePattern e
  else { e with seq := { e.seq with playing := false } }

/-- Per-slot effect of one channel scan on the slot contents. -/
def updSlot (c : ScanCtx) : Slot → Slot
  | none => none
  | some e => some (updEvent c e)

/-- The trigger ranges of two events do not overlap. -/
def slotsDisjoint : Slot → Slot → Bool
  | some e, some f =>
    decide (e.seq.startMeasureOffset + e.seq.length ≤ f.seq.startMeasureOffset ∨
            f.seq.startMeasureOffset + f.seq.length ≤ e.seq.startMeasureOffset)
  | _, _ => true

/-- All pairs of events of the channel have disjoint trigger ranges. -/
def pairwiseDisjoint : List Slot → Bool
  | [] => true
  | s :: rest => rest.all (slotsDisjoint s) && pairwiseDisjoint rest

/-- A slot is empty or holds a non-recording event of measure `m`. -/
def slotShapeOk (m : Int) : Slot → Bool
  | none => true
  | some e => !e.recording && e.seq.startMeasure == m

/-- The channel shape assumed by the monophony invariant: every event is
non-recording, belongs to measure `m`, and trigger ranges are pairwise
disjoint. -/
def chShapeOk (m : Int) (slots : List Slot) : Bool :=
  slots.all (slotShapeOk m) && pairwiseDisjoint slots

/-- JS read `channel[j]` where `j` is a number: an event only when `j` is
a non-negative integer index inside the array, `undefined` otherwise
(in particular for every fractional `j`). -/
def jsArrGetQ (l : List Slot) (j : ℚ) : Slot :=
  if j.den = 1 ∧ 0 ≤ j.num then (l.get? j.num.toNat).join else none

/-- JS write `arr[j] = v` where `j` is a number: stores into the slot only
when `j` is a non-negative integer index inside the array; a fractional
`j` creates a non-index property invisible to the slot array. -/
def jsArrSetQ (l : List Slot) (j : ℚ) (v : Slot) : List Slot :=
  if j.den = 1 ∧ 0 ≤ j.num then l.set j.num.toNat v else l

/-- The per-channel body of the `setPatternSteps` mutation: allocate
`steps` empty slots, then either decimate (`transformed[i] =
channel[i * increment]`, `increment = oldAmount / steps`) or expand
(`transformed[i * increment] = channel[i]`, `increment = steps /
oldAmount`); the divisions are exact JS number divisions, not integer
truncations. -/
def transformChannel (oldAmount steps : Nat) (channel : List Slot) : List Slot :=
  let transformed : List Slot := List.replicate steps none
  if steps < oldAmount then
    let increment : ℚ := (oldAmount : ℚ) / (steps : ℚ)
    (List.range steps).foldl
      (fun t (i : ℕ) => t.set i (jsArrGetQ channel ((i : ℚ) * increment))) transformed
  else
    let increment : ℚ := (steps : ℚ) / (oldAmount : ℚ)
    (List.range oldAmount).foldl
      (fun t (i : ℕ) => jsArrSetQ t ((i : ℚ) * increment) (channel.get? i).join)
      transformed

/-- The `setPatternSteps` mutation: each channel is replaced by its
transform (the old step count is read once, before the loop). -/
def setPatternSteps (pattern : Pattern) (steps : Nat) : Pattern :=
  { steps := steps,
    channels := pattern.channels.map (transformChannel pattern.steps steps) }

/-- One step's real-time duration, as added to `nextNoteTime` by `step`:
`((60 / tempo) * 4) / stepPrecision`. -/
def subdivision (song : Song) (stepPrecision : Nat) : ℚ :=
  ((60 / song.tempo) * 4) / (stepPrecision : ℚ)

/-- Concrete sample event builder used by the witnesses and
counterexamples below. -/
def mkEvent (action : Nat) (off len : ℚ) (playing : Bool := false) : Event :=
  ⟨action, 0, false, ⟨0, off, len, 0, playing⟩⟩

/-- A one-pattern sample song (16 steps, 120 BPM). -/
def sampleSong1 : Song := ⟨120, [⟨16, [[]]⟩]⟩

/-- A two-pattern sample song. -/
def sampleSong2 : Song := ⟨120, [⟨16, [[]]⟩, ⟨16, [[]]⟩]⟩

/-- A three-pattern sample song whose patterns hold distinct channel
lists. -/
def sampleSong3 : Song :=
  ⟨120, [⟨16, [[]]⟩, ⟨16, [[some (mkEvent 1 0 1)]]⟩, ⟨16, [[], []]⟩]⟩

/-- A quiescent sample sequencer state. -/
def sampleState : SeqState :=
  ⟨false, false, false, 1 / 5, 16, 4, [[]], 0, 0, 0, 0, 0, [],
    ⟨false, false, false, false⟩⟩

/-- A playing, looping state one step before the pattern wrap, with an
uncompleted metronome count-in, positioned on pattern 1. -/
def sampleCountInState : SeqState :=
  ⟨true, true, true, 1 / 5, 16, 4, [[]], 1, 0, 0, 15, 0, [],
    ⟨true, true, false, false⟩⟩

/-- A playing state at step 0 of pattern 0 used by the timing witness. -/
def sampleTimingState : SeqState :=
  ⟨true, true, false, 1 / 5, 16, 4, [[]], 0, 0, 0, 0, 0, [],
    ⟨false, false, false, false⟩⟩

/-- A channel holding two events whose trigger ranges overlap. -/
def overlapChannel : List Slot :=
  [some (mkEvent 1 0 1), some (mkEvent 1 (1 / 4) (1 / 2))]

/-- A scan context whose `compareTime` lies inside both trigger ranges of
`overlapChannel`. -/
def overlapCtx : ScanCtx := ⟨sampleSong1, 4, 0, 0, 3 / 10⟩

/-- A six-slot channel fully populated with noteOn events (used by the
resolution-change counterexamples). -/
def sixChannel : List Slot :=
  [some (mkEvent 1 0 1), some (mkEvent 1 1 1), some (mkEvent 1 2 1),
   some (mkEvent 1 3 1), some (mkEvent 1 4 1), some (mkEvent 1 5 1)]

/-- A four-slot channel fully populated with noteOn events. -/
def fourChannel : List Slot :=
  [some (mkEvent 1 0 1), some (mkEvent 1 1 1), some (mkEvent 1 2 1),
   some (mkEvent 1 3 1)]

/-- A state with two non-empty voice queues (for the flush witness). -/
def sampleQueueState : SeqState :=
  ⟨true, false, false, 1 / 5, 16, 4,
    [[mkEvent 1 0 1 true], [mkEvent 0 2 1 true, mkEvent 1 3 1 true]],
    1, 0, 0, 3, 2, [], ⟨false, false, false, false⟩⟩

/-- A playing, non-looping, non-recording state one step before a
pattern wrap on pattern 0. -/
def sampleWrapState : SeqState :=
  ⟨true, false, false, 1 / 5, 16, 4, [[]], 0, 0, 0, 15, 0, [],
    ⟨false, false, false, false⟩⟩

/-- A playing, non-looping state one step before a pattern wrap on
pattern 0, with an uncompleted recording count-in. -/
def sampleCountInWrapState : SeqState :=
  ⟨true, false, true, 1 / 5, 16, 4, [[]], 0, 0, 0, 15, 0, [],
    ⟨true, true, false, true⟩⟩

/-- A channel holding one non-recording, measure-0 noteOn event. -/
def singleChannel : List Slot := [some (mkEvent 1 0 1)]

/-- C2: enqueueing an event with `action ≠ 0` dispatches the new event's
noteOn at `nextNoteTime` first, then one noteOff at the same
`nextNoteTime` for each previously queued event, head first until the
queue is empty; a noteOn (`action = 1`) is then appended, so the queue
afterwards holds exactly that one event (a noteOff leaves it empty and
additionally emits its own immediate noteOff). -/
theorem C2_enqueue_monophony (song : Song) (beatAmount : ℚ) (ap : Int)
    (t : ℚ) (e : Event) (q : List Event) (h : e.action ≠ 0) :
    (enqueueEvent song beatAmount ap t e q).2.2 =
      Emission.noteOn (markPlaying song beatAmount ap e) t ::
        q.map (fun pe => Emission.noteOff pe t) ++
        (if e.action = 1 then []
         else [Emission.noteOff (markPlaying song beatAmount ap e)
                 (t + mpLengthFor song beatAmount ap)]) ∧
    (enqueueEvent song beatAmount ap t e q).2.1 =
      (if e.action = 1 then [markPlaying song beatAmount ap e] else []) := by
  by_cases h1 : e.action = 1 <;>
    simp [enqueueEvent, markPlaying, h, h1]

theorem C2_enqueue_monophony_witness :
    (enqueueEvent sampleSong1 4 0 (1 / 2) (mkEvent 1 (1 / 2) (1 / 8))
        [mkEvent 1 0 1 true]).2.2 =
      Emission.noteOn (markPlaying sampleSong1 4 0 (mkEvent 1 (1 / 2) (1 / 8))) (1 / 2) ::
        [mkEvent 1 0 1 true].map (fun pe => Emission.noteOff pe (1 / 2)) ++
        (if (mkEvent 1 (1 / 2) (1 / 8)).action = 1 then []
         else [Emission.noteOff (markPlaying sampleSong1 4 0 (mkEvent 1 (1 / 2) (1 / 8)))
                 ((1 / 2) + mpLengthFor sampleSong1 4 0)]) ∧
    (enqueueEvent sampleSong1 4 0 (1 / 2) (mkEvent 1 (1 / 2) (1 / 8))
        [mkEvent 1 0 1 true]).2.1 =
      (if (mkEvent 1 (1 / 2) (1 / 8)).action = 1 then
        [markPlaying sampleSong1 4 0 (mkEvent 1 (1 / 2) (1 / 8))] else []) :=
  C2_enqueue_monophony sampleSong1 4 0 (1 / 2) (mkEvent 1 (1 / 2) (1 / 8))
    [mkEvent 1 0 1 true] (by decide)

/-- C8: enqueueing a module-parameter change (`action = 0`) emits exactly
one noteOn (at `nextNoteTime`) and one noteOff, the noteOff trailing the
noteOn by `mpLength = ((60 / tempo) * beatAmount) / pattern.steps` for
the active pattern (0 when the pattern is missing), and never touches the
channel's voice queue. -/
theorem C8_module_param_self_terminating (song : Song) (beatAmount : ℚ)
    (ap : Int) (t : ℚ) (e : Event) (q : List Event) (h : e.action = 0) :
    (enqueueEvent song beatAmount ap t e q).2.2 =
      [Emission.noteOn (markPlaying song beatAmount ap e) t,
       Emission.noteOff (markPlaying song beatAmount ap e)
         (t + mpLengthFor song beatAmount ap)] ∧
    (enqueueEvent song beatAmount ap t e q).2.1 = q ∧
    (∀ p, listGetInt song.patterns ap = some p →
      mpLengthFor song beatAmount ap = ((60 / song.tempo) * beatAmount) / (p.steps : ℚ)) ∧
    (listGetInt song.patterns ap = none → mpLengthFor song beatAmount ap = 0) := by
  refine ⟨?_, ?_, ?_, ?_⟩
  · simp [enqueueEvent, markPlaying, h]
  · simp [enqueueEvent, markPlaying, h]
  · intro p hp; simp [mpLengthFor, hp]
  · intro hp; simp [mpLengthFor, hp]

theorem C8_module_param_self_terminating_witness :
    (enqueueEvent sampleSong1 4 0 (1 / 4) (mkEvent 0 (1 / 4) (1 / 8))
        [mkEvent 1 0 1 true]).2.2 =
      [Emission.noteOn (markPlaying sampleSong1 4 0 (mkEvent 0 (1 / 4) (1 / 8))) (1 / 4),
       Emission.noteOff (markPlaying sampleSong1 4 0 (mkEvent 0 (1 / 4) (1 / 8)))
         ((1 / 4) + mpLengthFor sampleSong1 4 0)] ∧
    (enqueueEvent sampleSong1 4 0 (1 / 4) (mkEvent 0 (1 / 4) (1 / 8))
        [mkEvent 1 0 1 true]).2.1 = [mkEvent 1 0 1 true] ∧
    (∀ p, listGetInt sampleSong1.patterns 0 = some p →
      mpLengthFor sampleSong1 4 0 = ((60 / sampleSong1.tempo) * 4) / (p.steps : ℚ)) ∧
    (listGetInt sampleSong1.patterns 0 = none → mpLengthFor sampleSong1 4 0 = 0) :=
  C8_module_param_self_terminating sampleSong1 4 0 (1 / 4) (mkEvent 0 (1 / 4) (1 / 8))
    [mkEvent 1 0 1 true] (by decide)

/-- C1 counterexample: one collect scan over a channel holding two events
with overlapping trigger ranges, at a `compareTime` inside both ranges,
leaves both events with `seq.playing = true` — the as-stated invariant
fails on the code. -/
theorem C1_counterexample :
    ¬ playingCount (applyScans [overlapCtx] (overlapChannel, [])).1 ≤ 1 := by
  with_unfolding_all decide

/-- C3 counterexample: at a pattern wrap with `looping = true` but an
uncompleted recording count-in, `step` does not leave `activePattern`
unchanged — the count-in completion forces it to 0. -/
theorem C3_counterexample :
    ¬ (step sampleSong3 false 0 sampleCountInState).state.activePattern =
      sampleCountInState.activePattern := by
  with_unfolding_all decide

/-- C4 counterexample: decimating 6 steps to 4, the claim (with truncated
`k = 6 / 4 = 1`) predicts `new[1] = old[1]`, but the code computes the
fractional source index `1 * (6/4) = 1.5`, reads `undefined`, and leaves
the slot empty. -/
theorem C4_counterexample :
    ¬ (transformChannel 6 4 sixChannel).get? 1 =
      some ((sixChannel.get? (1 * (6 / 4))).join) := by
  with_unfolding_all decide

/-- C5 counterexample: expanding 4 steps to 6, the claim (with truncated
`k = 6 / 4 = 1`) predicts `new[1] = old[1]`, but the code writes `old[1]`
at the fractional index `1.5` (an invisible non-index property), so slot
1 stays empty. -/
theorem C5_counterexample :
    ¬ (transformChannel 4 6 fourChannel).get? (1 * (6 / 4)) =
      some ((fourChannel.get? 1).join) := by
  with_unfolding_all decide

/-- C6 counterexample: `setPosition` with the negative pattern `-1` does
not clamp from below: the committed `activePattern` is `-1`, outside
`[0, patterns.length - 1]`. -/
theorem C6_counterexample :
    ¬ 0 ≤ (setPosition sampleSong2 sampleState (-1) 0).state.activePattern := by
  decide

theorem setPosition_activePattern (song : Song) (st : SeqState)
    (pattern : Int) (t : ℚ) :
    (setPosition song st pattern t).state.activePattern =
      if pattern ≥ (song.patterns.length : Int) then (song.patterns.length : Int) - 1
      else pattern := by
  by_cases hge : (song.patterns.length : Int) ≤ pattern
  · rcases h : listGetInt song.patterns ((song.patterns.length : Int) - 1) with _ | p <;>
      simp [setPosition, hge, h, apply_ite, ite_self]
  · rcases h : listGetInt song.patterns pattern with _ | p <;>
      simp [setPosition, hge, h, apply_ite, ite_self]


/-- C6 (amended): `setPosition` clamps its pattern argument only from
above: every non-negative input yields an `activePattern` inside
`[0, patterns.length - 1]` (negative inputs are stored unclamped, as the
counterexample shows). -/
theorem C6_clamped_from_above (song : Song) (st : SeqState) (pattern : Int)
    (t : ℚ) (h0 : 0 ≤ pattern) (hL : 1 ≤ song.patterns.length) :
    0 ≤ (setPosition song st pattern t).state.activePattern ∧
    (setPosition song st pattern t).state.activePattern ≤
      (song.patterns.length : Int) - 1 := by
  rw [setPosition_activePattern]
  split <;> omega

theorem C6_clamped_from_above_witness :
    (0 ≤ (setPosition sampleSong2 sampleState 5 0).state.activePattern ∧
      (setPosition sampleSong2 sampleState 5 0).state.activePattern ≤
        (sampleSong2.patterns.length : Int) - 1) ∧
    (0 ≤ (setPosition sampleSong2 sampleState 1 0).state.activePattern ∧
      (setPosition sampleSong2 sampleState 1 0).state.activePattern ≤
        (sampleSong2.patterns.length : Int) - 1) :=
  ⟨C6_clamped_from_above sampleSong2 sampleState 5 0 (by decide) (by decide),
   C6_clamped_from_above sampleSong2 sampleState 1 0 (by decide) (by decide)⟩

/-- C7: `setPosition` to pattern 0 (with at least one pattern present)
drains every voice queue: one noteOff per queued entry at the supplied
time, `seq.playing` cleared on each drained event, and every queue empty
immediately afterwards. -/
theorem C7_flush_on_zero (song : Song) (st : SeqState) (t : ℚ)
    (hL : 1 ≤ song.patterns.length) :
    (setPosition song st 0 t).threw = false ∧
    (∀ q ∈ (setPosition song st 0 t).state.channelQueue, q = []) ∧
    (setPosition song st 0 t).emissions =
      (st.channelQueue.map (fun q => q.map (fun e => Emission.noteOff e t))).flatten ∧
    (∀ e ∈ (setPosition song st 0 t).drained, e.seq.playing = false) := by
  rcases song with ⟨tempo, patterns⟩
  rcases patterns with _ | ⟨p, ps⟩
  · simp at hL
  · have hlen : ¬ (((ps.length : Int)) + 1 ≤ 0) := by omega
    refine ⟨?_, ?_, ?_, ?_⟩
    · simp [setPosition, listGetInt, hlen, apply_ite, ite_self]
    · intro q hq
      simp [setPosition, listGetInt, hlen, apply_ite, ite_self, List.mem_map] at hq
      obtain ⟨a, ha, rfl⟩ := hq
      rfl
    · simp [setPosition, listGetInt, hlen, apply_ite, ite_self]
    · intro e he
      have hform : (setPosition ⟨tempo, p :: ps⟩ st 0 t).drained =
          (st.channelQueue.map (fun q => q.map
            (fun f => { f with seq := { f.seq with playing := false } }))).flatten := by
        simp [setPosition, listGetInt, hlen, apply_ite, ite_self]
      rw [hform, List.mem_flatten] at he
      obtain ⟨l, hl, hel⟩ := he
      rw [List.mem_map] at hl
      obtain ⟨q, hq, rfl⟩ := hl
      rw [List.mem_map] at hel
      obtain ⟨f, hf, rfl⟩ := hel
      rfl

theorem C7_flush_on_zero_witness :
    (setPosition sampleSong2 sampleQueueState 0 7).threw = false ∧
    (∀ q ∈ (setPosition sampleSong2 sampleQueueState 0 7).state.channelQueue, q = []) ∧
    (setPosition sampleSong2 sampleQueueState 0 7).emissions =
      (sampleQueueState.channelQueue.map
        (fun q => q.map (fun e => Emission.noteOff e 7))).flatten ∧
    (∀ e ∈ (setPosition sampleSong2 sampleQueueState 0 7).drained,
      e.seq.playing = false) :=
  C7_flush_on_zero sampleSong2 sampleQueueState 7 (by decide)

theorem setPosition_fields (song : Song) (st : SeqState) (pattern : Int)
    (t : ℚ) (p : Pattern)
    (hge : ¬ (song.patterns.length : Int) ≤ pattern)
    (hp : listGetInt song.patterns pattern = some p) :
    (setPosition song st pattern t).threw = false ∧
    (setPosition song st pattern t).state.nextNoteTime = t ∧
    (setPosition song st pattern t).state.measureStartTime = t ∧
    (setPosition song st pattern t).state.channels = p.channels ∧
    (setPosition song st pattern t).state.activePattern = pattern ∧
    (setPosition song st pattern t).state.currentStep =
      (if st.activePattern = pattern then st.currentStep else 0) ∧
    (setPosition song st pattern t).state.stepPrecision = st.stepPrecision ∧
    (setPosition song st pattern t).state.playing = st.playing ∧
    (setPosition song st pattern t).state.looping = st.looping ∧
    (setPosition song st pattern t).state.recording = st.recording ∧
    (setPosition song st pattern t).state.metronome = st.metronome ∧
    (setPosition song st pattern t).state.beatAmount = st.beatAmount ∧
    (setPosition song st pattern t).state.firstMeasureStartTime =
      t - (pattern : ℚ) * (60 / song.tempo * st.beatAmount) := by
  by_cases hap : st.activePattern = pattern <;>
    simp [setPosition, hge, hp, hap, apply_ite, ite_self]


theorem listGetInt_some_of_lt (l : List α) (i : Int) (h0 : 0 ≤ i)
    (h1 : i < (l.length : Int)) : ∃ a, listGetInt l i = some a := by
  have ht : i.toNat < l.length := by omega
  simp [listGetInt, h0, List.get?_eq_getElem?, List.getElem?_eq_getElem ht]

theorem stepCommit_fields (song : Song) (act : ℚ) (st : SeqState) (p : Pattern)
    (hge : ¬ (song.patterns.length : Int) ≤ st.activePattern)
    (hp : listGetInt song.patterns st.activePattern = some p) :
    (stepCommit song act st).threw = false ∧
    (stepCommit song act st).state.nextNoteTime = st.nextNoteTime ∧
    (stepCommit song act st).state.measureStartTime = st.nextNoteTime ∧
    (stepCommit song act st).state.channels = p.channels ∧
    (stepCommit song act st).state.currentStep = st.currentStep ∧
    (stepCommit song act st).state.stepPrecision = st.stepPrecision ∧
    (stepCommit song act st).state.playing = st.playing ∧
    (stepCommit song act st).state.looping = st.looping ∧
    (stepCommit song act st).state.activePattern =
      (if st.recording = true ∧ st.metronome.countIn = true ∧
          st.metronome.countInComplete = false then 0 else st.activePattern) ∧
    (stepCommit song act st).state.metronome.countInComplete =
      (if st.recording = true ∧ st.metronome.countIn = true ∧
          st.metronome.countInComplete = false then true
       else st.metronome.countInComplete) ∧
    (stepCommit song act st).state.firstMeasureStartTime =
      (if st.recording = true ∧ st.metronome.countIn = true ∧
          st.metronome.countInComplete = false then act
       else st.nextNoteTime -
         (st.activePattern : ℚ) * (60 / song.tempo * st.beatAmount)) := by
  obtain ⟨h1, h2, h3, h4, h5, h6, h7, h8, h9, h10, h11, h12, h13⟩ :=
    setPosition_fields song st st.activePattern st.nextNoteTime p hge hp
  by_cases hC : st.recording = true ∧ st.metronome.countIn = true ∧
      st.metronome.countInComplete = false <;>
    simp [stepCommit, h1, h2, h3, h4, h5, h6, h7, h8, h9, h10, h11, h12, h13, hC]


theorem step_noWrap (song : Song) (air : Bool) (act : ℚ) (st : SeqState)
    (h : ¬ st.currentStep + 1 = st.stepPrecision) :
    step song air act st =
      ⟨{ st with nextNoteTime := st.nextNoteTime + subdivision song st.stepPrecision,
                 currentStep := st.currentStep + 1 }, [], false⟩ := by
  simp [step, subdivision, h]

theorem step_wrap_early (song : Song) (act : ℚ) (st : SeqState)
    (hW : st.currentStep + 1 = st.stepPrecision)
    (hOv : st.activePattern + 1 > (song.patterns.length : Int) - 1)
    (hLoop : st.looping = false) :
    step song true act st =
      ⟨setPlaying
        { st with nextNoteTime := st.nextNoteTime + subdivision song st.stepPrecision,
                  currentStep := 0, activePattern := 0 } false, [], false⟩ := by
  simp [step, subdivision, hW, hOv, hLoop]

theorem step_wrap_overflow_commit (song : Song) (air : Bool) (act : ℚ) (st : SeqState)
    (hW : st.currentStep + 1 = st.stepPrecision)
    (hOv : st.activePattern + 1 > (song.patterns.length : Int) - 1)
    (hAir : ¬ (air = true ∧ st.looping = false)) :
    step song air act st =
      stepCommit song act
        { st with nextNoteTime := st.nextNoteTime + subdivision song st.stepPrecision,
                  currentStep := 0, activePattern := 0 } := by
  simp [step, subdivision, hW, hOv, hAir]

theorem step_wrap_loop (song : Song) (air : Bool) (act : ℚ) (st : SeqState)
    (hW : st.currentStep + 1 = st.stepPrecision)
    (hOv : ¬ st.activePattern + 1 > (song.patterns.length : Int) - 1)
    (hLoop : st.looping = true) :
    step song air act st =
      stepCommit song act
        { st with nextNoteTime := st.nextNoteTime + subdivision song st.stepPrecision,
                  currentStep := 0 } := by
  simp [step, subdivision, hW, hOv, hLoop]

theorem step_wrap_advance (song : Song) (air : Bool) (act : ℚ) (st : SeqState)
    (hW : st.currentStep + 1 = st.stepPrecision)
    (hOv : ¬ st.activePattern + 1 > (song.patterns.length : Int) - 1)
    (hLoop : st.looping = false) :
    step song air act st =
      stepCommit song act
        (gotoNextPattern song
          { st with nextNoteTime := st.nextNoteTime + subdivision song st.stepPrecision,
                    currentStep := 0 }) := by
  simp [step, subdivision, hW, hOv, hLoop]

theorem gotoNextPattern_lt (song : Song) (st : SeqState)
    (h : st.activePattern < (song.patterns.length : Int) - 1) :
    gotoNextPattern song st = { st with activePattern := st.activePattern + 1 } := by
  simp [gotoNextPattern, h]


/-- C3 (amended): at a pattern wrap `step` resets `currentStep` to 0; on
overflow (`activePattern + 1 > patterns.length - 1`) it sets
`activePattern` to 0 and, when the audio sink records its output and
looping is off, stops playback and returns without committing a position;
in range it advances `activePattern` when not looping and leaves it
unchanged when looping — the last two clauses under the proviso (forced
by the counterexample) that the count-in completion branch does not run,
since that branch forces `activePattern` to 0. -/
theorem C3_step_advancement (song : Song) (air : Bool) (act : ℚ) (st : SeqState)
    (hW : st.currentStep + 1 = st.stepPrecision)
    (hL : 1 ≤ song.patterns.length)
    (hA : 0 ≤ st.activePattern)
    (hC : ¬ (st.recording = true ∧ st.metronome.countIn = true ∧
             st.metronome.countInComplete = false)) :
    (step song air act st).state.currentStep = 0 ∧
    (st.activePattern + 1 > (song.patterns.length : Int) - 1 →
      (step song air act st).state.activePattern = 0) ∧
    (st.activePattern + 1 > (song.patterns.length : Int) - 1 → air = true →
      st.looping = false →
      (step song air act st).state.playing = false ∧
      (step song air act st).state.measureStartTime = st.measureStartTime ∧
      (step song air act st).state.channels = st.channels) ∧
    (st.activePattern + 1 ≤ (song.patterns.length : Int) - 1 → st.looping = false →
      (step song air act st).state.activePattern = st.activePattern + 1) ∧
    (st.activePattern + 1 ≤ (song.patterns.length : Int) - 1 → st.looping = true →
      (step song air act st).state.activePattern = st.activePattern) := by
  by_cases hOv : st.activePattern + 1 > (song.patterns.length : Int) - 1
  · by_cases hAL : air = true ∧ st.looping = false
    · obtain ⟨ha, hl⟩ := hAL
      subst ha
      rw [step_wrap_early song act st hW hOv hl]
      refine ⟨by simp [setPlaying], fun _ => by simp [setPlaying], ?_, ?_, ?_⟩
      · exact fun _ _ _ => ⟨by simp [setPlaying], by simp [setPlaying], by simp [setPlaying]⟩
      · intro h; omega
      · intro h; omega
    · rw [step_wrap_overflow_commit song air act st hW hOv hAL]
      obtain ⟨p, hp⟩ := listGetInt_some_of_lt song.patterns 0 (by omega) (by omega)
      have hge : ¬ (song.patterns.length : Int) ≤ (0 : Int) := by omega
      obtain ⟨f1, f2, f3, f4, f5, f6, f7, f8, f9, f10, f11⟩ :=
        stepCommit_fields song act
          { st with nextNoteTime := st.nextNoteTime + subdivision song st.stepPrecision,
                    currentStep := 0, activePattern := 0 } p hge hp
      refine ⟨by simpa using f5, fun _ => ?_, ?_, ?_, ?_⟩
      · rw [f9]; simp
      · intro _ ha hl; exact absurd ⟨ha, hl⟩ hAL
      · intro h; omega
      · intro h; omega
  · by_cases hLoop : st.looping = true
    · rw [step_wrap_loop song air act st hW hOv hLoop]
      have hlt : st.activePattern < (song.patterns.length : Int) := by omega
      obtain ⟨p, hp⟩ := listGetInt_some_of_lt song.patterns st.activePattern hA hlt
      have hge : ¬ (song.patterns.length : Int) ≤ st.activePattern := by omega
      obtain ⟨f1, f2, f3, f4, f5, f6, f7, f8, f9, f10, f11⟩ :=
        stepCommit_fields song act
          { st with nextNoteTime := st.nextNoteTime + subdivision song st.stepPrecision,
                    currentStep := 0 } p hge hp
      refine ⟨by simpa using f5, fun h => by omega, fun h => by omega, ?_, ?_⟩
      · intro _ hl; rw [hl] at hLoop; simp at hLoop
      · intro _ _; rw [f9]; simp [hC]
    · have hl : st.looping = false := by simpa using hLoop
      rw [step_wrap_advance song air act st hW hOv hl]
      have hlt2 : st.activePattern < (song.patterns.length : Int) - 1 := by omega
      rw [gotoNextPattern_lt song _ (by simpa using hlt2)]
      obtain ⟨p, hp⟩ := listGetInt_some_of_lt song.patterns (st.activePattern + 1)
        (by omega) (by omega)
      have hge : ¬ (song.patterns.length : Int) ≤ st.activePattern + 1 := by omega
      obtain ⟨f1, f2, f3, f4, f5, f6, f7, f8, f9, f10, f11⟩ :=
        stepCommit_fields song act
          { st with nextNoteTime := st.nextNoteTime + subdivision song st.stepPrecision,
                    currentStep := 0, activePattern := st.activePattern + 1 } p hge hp
      refine ⟨by simpa using f5, fun h => by omega, fun h => by omega, ?_, ?_⟩
      · intro _ _; rw [f9]; simp [hC]
      · intro _ hlt; rw [hlt] at hl; cases hl

theorem setPosition_nextNoteTime (song : Song) (st : SeqState)
    (pattern : Int) (t : ℚ) :
    (setPosition song st pattern t).state.nextNoteTime = t := by
  by_cases hge : (song.patterns.length : Int) ≤ pattern
  · rcases h : listGetInt song.patterns ((song.patterns.length : Int) - 1) with _ | p <;>
      simp [setPosition, hge, h, apply_ite, ite_self]
  · rcases h : listGetInt song.patterns pattern with _ | p <;>
      simp [setPosition, hge, h, apply_ite, ite_self]

theorem setPosition_stepPrecision (song : Song) (st : SeqState)
    (pattern : Int) (t : ℚ) :
    (setPosition song st pattern t).state.stepPrecision = st.stepPrecision := by
  by_cases hge : (song.patterns.length : Int) ≤ pattern
  · rcases h : listGetInt song.patterns ((song.patterns.length : Int) - 1) with _ | p <;>
      simp [setPosition, hge, h, apply_ite, ite_self]
  · rcases h : listGetInt song.patterns pattern with _ | p <;>
      simp [setPosition, hge, h, apply_ite, ite_self]

theorem stepCommit_nextNoteTime (song : Song) (act : ℚ) (st : SeqState) :
    (stepCommit song act st).state.nextNoteTime = st.nextNoteTime := by
  simp [stepCommit, apply_ite, setPosition_nextNoteTime, ite_self]

theorem stepCommit_stepPrecision (song : Song) (act : ℚ) (st : SeqState) :
    (stepCommit song act st).state.stepPrecision = st.stepPrecision := by
  simp [stepCommit, apply_ite, setPosition_stepPrecision, ite_self]

theorem gotoNextPattern_nextNoteTime (song : Song) (st : SeqState) :
    (gotoNextPattern song st).nextNoteTime = st.nextNoteTime := by
  simp [gotoNextPattern, apply_ite, ite_self]

theorem gotoNextPattern_stepPrecision (song : Song) (st : SeqState) :
    (gotoNextPattern song st).stepPrecision = st.stepPrecision := by
  simp [gotoNextPattern, apply_ite, ite_self]

theorem step_nextNoteTime (song : Song) (air : Bool) (act : ℚ) (st : SeqState) :
    (step song air act st).state.nextNoteTime =
      st.nextNoteTime + subdivision song st.stepPrecision := by
  by_cases hW : st.currentStep + 1 = st.stepPrecision
  · by_cases hOv : st.activePattern + 1 > (song.patterns.length : Int) - 1
    · by_cases hAL : air = true ∧ st.looping = false
      · obtain ⟨ha, hl⟩ := hAL
        subst ha
        rw [step_wrap_early song act st hW hOv hl]
        simp [setPlaying]
      · rw [step_wrap_overflow_commit song air act st hW hOv hAL,
            stepCommit_nextNoteTime]
    · by_cases hLoop : st.looping = true
      · rw [step_wrap_loop song air act st hW hOv hLoop, stepCommit_nextNoteTime]
      · rw [step_wrap_advance song air act st hW hOv (by simpa using hLoop),
            stepCommit_nextNoteTime, gotoNextPattern_nextNoteTime]
  · rw [step_noWrap song air act st hW]

theorem step_stepPrecision (song : Song) (air : Bool) (act : ℚ) (st : SeqState) :
    (step song air act st).state.stepPrecision = st.stepPrecision := by
  by_cases hW : st.currentStep + 1 = st.stepPrecision
  · by_cases hOv : st.activePattern + 1 > (song.patterns.length : Int) - 1
    · by_cases hAL : air = true ∧ st.looping = false
      · obtain ⟨ha, hl⟩ := hAL
        subst ha
        rw [step_wrap_early song act st hW hOv hl]
        simp [setPlaying]
      · rw [step_wrap_overflow_commit song air act st hW hOv hAL,
            stepCommit_stepPrecision]
    · by_cases hLoop : st.looping = true
      · rw [step_wrap_loop song air act st hW hOv hLoop, stepCommit_stepPrecision]
      · rw [step_wrap_advance song air act st hW hOv (by simpa using hLoop),
            stepCommit_stepPrecision, gotoNextPattern_stepPrecision]
  · rw [step_noWrap song air act st hW]

theorem stepIter_nextNoteTime (song : Song) (air : Bool) (act : ℚ) :
    ∀ (n : Nat) (st : SeqState),
      (stepIter song air act st n).state.nextNoteTime =
        st.nextNoteTime + (n : ℚ) * subdivision song st.stepPrecision := by
  intro n
  induction n with
  | zero => intro st; simp [stepIter]
  | succ n ih =>
    intro st
    have h1 := step_nextNoteTime song air act st
    have h2 := step_stepPrecision song air act st
    simp only [stepIter]
    rw [ih, h1, h2]
    push_cast
    ring

/-- C9: every `step` call advances `nextNoteTime` by exactly
`((60 / tempo) * 4) / stepPrecision` (the wrap commit passes the
incremented `nextNoteTime` through unchanged), and `stepPrecision`
successive calls advance it by exactly `(60 / tempo) * 4` — one whole
note. -/
theorem C9_step_timing (song : Song) (air : Bool) (act : ℚ) (st : SeqState)
    (h : 0 < st.stepPrecision) :
    (step song air act st).state.nextNoteTime =
      st.nextNoteTime + subdivision song st.stepPrecision ∧
    (stepIter song air act st st.stepPrecision).state.nextNoteTime =
      st.nextNoteTime + (60 / song.tempo) * 4 := by
  refine ⟨step_nextNoteTime song air act st, ?_⟩
  rw [stepIter_nextNoteTime song air act st.stepPrecision st]
  have hS : (st.stepPrecision : ℚ) ≠ 0 := by
    exact_mod_cast Nat.pos_iff_ne_zero.mp h
  rw [subdivision, mul_comm, div_mul_cancel₀ _ hS]

theorem C9_step_timing_witness :
    ((step sampleSong3 false 0 sampleTimingState).state.nextNoteTime =
      sampleTimingState.nextNoteTime +
        subdivision sampleSong3 sampleTimingState.stepPrecision ∧
    (stepIter sampleSong3 false 0 sampleTimingState
        sampleTimingState.stepPrecision).state.nextNoteTime =
      sampleTimingState.nextNoteTime + (60 / sampleSong3.tempo) * 4) :=
  C9_step_timing sampleSong3 false 0 sampleTimingState (by decide)


/-- C10: when the count-in completes at an in-range pattern wrap
(recording with count-in pending, not looping), `step` forces
`activePattern` to 0 after the position commit, but `channels` stays
bound to the wrap pattern's channels and `measureStartTime` /
`nextNoteTime` keep the committed values; only `firstMeasureStartTime`
is rebased to the audio clock. -/
theorem C10_countin_frame (song : Song) (air : Bool) (act : ℚ) (st : SeqState)
    (p : Pattern)
    (hW : st.currentStep + 1 = st.stepPrecision)
    (hRec : st.recording = true)
    (hCI : st.metronome.countIn = true)
    (hNC : st.metronome.countInComplete = false)
    (hLoop : st.looping = false)
    (hA : 0 ≤ st.activePattern)
    (hInR : st.activePattern + 1 ≤ (song.patterns.length : Int) - 1)
    (hp : listGetInt song.patterns (st.activePattern + 1) = some p) :
    (step song air act st).threw = false ∧
    (step song air act st).state.activePattern = 0 ∧
    (step song air act st).state.channels = p.channels ∧
    (step song air act st).state.measureStartTime =
      st.nextNoteTime + subdivision song st.stepPrecision ∧
    (step song air act st).state.nextNoteTime =
      st.nextNoteTime + subdivision song st.stepPrecision ∧
    (step song air act st).state.metronome.countInComplete = true ∧
    (step song air act st).state.firstMeasureStartTime = act := by
  rw [step_wrap_advance song air act st hW (by omega) hLoop,
      gotoNextPattern_lt song _ (by simpa using (by omega :
        st.activePattern < (song.patterns.length : Int) - 1))]
  have hge : ¬ (song.patterns.length : Int) ≤ st.activePattern + 1 := by omega
  obtain ⟨f1, f2, f3, f4, f5, f6, f7, f8, f9, f10, f11⟩ :=
    stepCommit_fields song act
      { st with nextNoteTime := st.nextNoteTime + subdivision song st.stepPrecision,
                currentStep := 0, activePattern := st.activePattern + 1 } p hge hp
  refine ⟨f1, ?_, f4, by simpa using f3, by simpa using f2, ?_, ?_⟩
  · rw [f9]; simp [hRec, hCI, hNC]
  · rw [f10]; simp [hRec, hCI, hNC]
  · rw [f11]; simp [hRec, hCI, hNC]



theorem C3_step_advancement_witness :
    (step sampleSong3 false 0 sampleWrapState).state.currentStep = 0 ∧
    (sampleWrapState.activePattern + 1 > (sampleSong3.patterns.length : Int) - 1 →
      (step sampleSong3 false 0 sampleWrapState).state.activePattern = 0) ∧
    (sampleWrapState.activePattern + 1 > (sampleSong3.patterns.length : Int) - 1 →
      false = true → sampleWrapState.looping = false →
      (step sampleSong3 false 0 sampleWrapState).state.playing = false ∧
      (step sampleSong3 false 0 sampleWrapState).state.measureStartTime =
        sampleWrapState.measureStartTime ∧
      (step sampleSong3 false 0 sampleWrapState).state.channels =
        sampleWrapState.channels) ∧
    (sampleWrapState.activePattern + 1 ≤ (sampleSong3.patterns.length : Int) - 1 →
      sampleWrapState.looping = false →
      (step sampleSong3 false 0 sampleWrapState).state.activePattern =
        sampleWrapState.activePattern + 1) ∧
    (sampleWrapState.activePattern + 1 ≤ (sampleSong3.patterns.length : Int) - 1 →
      sampleWrapState.looping = true →
      (step sampleSong3 false 0 sampleWrapState).state.activePattern =
        sampleWrapState.activePattern) :=
  C3_step_advancement sampleSong3 false 0 sampleWrapState (by decide) (by decide)
    (by decide) (by decide)

theorem C10_countin_frame_witness :
    (step sampleSong3 false 9 sampleCountInWrapState).threw = false ∧
    (step sampleSong3 false 9 sampleCountInWrapState).state.activePattern = 0 ∧
    (step sampleSong3 false 9 sampleCountInWrapState).state.channels =
      (⟨16, [[some (mkEvent 1 0 1)]]⟩ : Pattern).channels ∧
    (step sampleSong3 false 9 sampleCountInWrapState).state.measureStartTime =
      sampleCountInWrapState.nextNoteTime +
        subdivision sampleSong3 sampleCountInWrapState.stepPrecision ∧
    (step sampleSong3 false 9 sampleCountInWrapState).state.nextNoteTime =
      sampleCountInWrapState.nextNoteTime +
        subdivision sampleSong3 sampleCountInWrapState.stepPrecision ∧
    (step sampleSong3 false 9 sampleCountInWrapState).state.metronome.countInComplete
      = true ∧
    (step sampleSong3 false 9 sampleCountInWrapState).state.firstMeasureStartTime = 9 :=
  C10_countin_frame sampleSong3 false 9 sampleCountInWrapState
    ⟨16, [[some (mkEvent 1 0 1)]]⟩ (by decide) (by decide) (by decide) (by decide)
    (by decide) (by decide) (by decide) (by with_unfolding_all decide)

theorem enqueueEvent_fst (song : Song) (b : ℚ) (ap : Int) (t : ℚ)
    (e : Event) (q : List Event) :
    (enqueueEvent song b ap t e q).1 = markPlaying song b ap e := by
  by_cases h1 : (markPlaying song b ap e).action = 1 <;>
    by_cases h0 : (markPlaying song b ap e).action ≠ 0 <;>
    simp [enqueueEvent, markPlaying, h1, h0] at h1 ⊢ <;> simp_all

theorem scanChannel_fst (c : ScanCtx) :
    ∀ (slots : List Slot) (q : List Event),
      (scanChannel c slots q).1 = slots.map (updSlot c) := by
  intro slots
  induction slots with
  | nil => intro q; simp [scanChannel]
  | cons s rest ih =>
    intro q
    match s with
    | none => simp [scanChannel, ih, updSlot]
    | some e =>
      by_cases h1 : e.recording = true ∨ e.seq.startMeasure ≠ c.activePattern
      · simp [scanChannel, ih, updSlot, updEvent, h1]
      · by_cases h2 : c.compareTime ≥ e.seq.startMeasureOffset ∧
            c.compareTime < e.seq.startMeasureOffset + e.seq.length
        · by_cases h3 : e.seq.playing
          · simp [scanChannel, ih, updSlot, updEvent, h1, h2, h3]
          · simp [scanChannel, ih, updSlot, updEvent, h1, h2, h3, enqueueEvent_fst,
              markPlaying]
        · simp [scanChannel, ih, updSlot, updEvent, h1, h2]


theorem updEvent_recording (c : ScanCtx) (e : Event) :
    (updEvent c e).recording = e.recording := by
  unfold updEvent markPlaying
  split_ifs <;> rfl

theorem updEvent_startMeasure (c : ScanCtx) (e : Event) :
    (updEvent c e).seq.startMeasure = e.seq.startMeasure := by
  unfold updEvent markPlaying
  split_ifs <;> rfl

theorem updEvent_startMeasureOffset (c : ScanCtx) (e : Event) :
    (updEvent c e).seq.startMeasureOffset = e.seq.startMeasureOffset := by
  unfold updEvent markPlaying
  split_ifs <;> rfl

theorem updEvent_length (c : ScanCtx) (e : Event) :
    (updEvent c e).seq.length = e.seq.length := by
  unfold updEvent markPlaying
  split_ifs <;> rfl

theorem updEvent_skip (c : ScanCtx) (e : Event)
    (h : e.recording = true ∨ e.seq.startMeasure ≠ c.activePattern) :
    updEvent c e = e := by
  simp [updEvent, h]

theorem updEvent_playing_iff (c : ScanCtx) (e : Event)
    (h1 : e.recording = false) (h2 : e.seq.startMeasure = c.activePattern) :
    ((updEvent c e).seq.playing = true ↔
      (c.compareTime ≥ e.seq.startMeasureOffset ∧
       c.compareTime < e.seq.startMeasureOffset + e.seq.length)) := by
  have hskip : ¬ (e.recording = true ∨ e.seq.startMeasure ≠ c.activePattern) := by
    simp [h1, h2]
  by_cases hr : c.compareTime ≥ e.seq.startMeasureOffset ∧
      c.compareTime < e.seq.startMeasureOffset + e.seq.length
  · by_cases hp : e.seq.playing <;> simp [updEvent, hskip, hr, hp, markPlaying]
  · simp [updEvent, hskip, hr]

theorem slotsDisjoint_updSlot (c : ScanCtx) (s t : Slot) :
    slotsDisjoint (updSlot c s) (updSlot c t) = slotsDisjoint s t := by
  cases s <;> cases t <;>
    simp [updSlot, slotsDisjoint, updEvent_startMeasureOffset, updEvent_length]

theorem slotShapeOk_updSlot (c : ScanCtx) (m : Int) (s : Slot) :
    slotShapeOk m (updSlot c s) = slotShapeOk m s := by
  cases s <;>
    simp [updSlot, slotShapeOk, updEvent_recording, updEvent_startMeasure]

theorem list_all_congr {xs : List α} {f g : α → Bool}
    (hfg : ∀ x ∈ xs, f x = g x) : xs.all f = xs.all g := by
  induction xs with
  | nil => rfl
  | cons y ys ih =>
    rw [List.all_cons, List.all_cons, hfg y (List.mem_cons_self y ys),
      ih fun z hz => hfg z (List.mem_cons_of_mem y hz)]

theorem pairwiseDisjoint_map_updSlot (c : ScanCtx) :
    ∀ slots : List Slot,
      pairwiseDisjoint (slots.map (updSlot c)) = pairwiseDisjoint slots := by
  intro slots
  induction slots with
  | nil => simp [pairwiseDisjoint]
  | cons s rest ih =>
    simp only [List.map_cons, pairwiseDisjoint, ih, List.all_map]
    congr 1
    exact list_all_congr (fun t _ => slotsDisjoint_updSlot c s t)


theorem chShapeOk_map_updSlot (c : ScanCtx) (m : Int) (slots : List Slot) :
    chShapeOk m (slots.map (updSlot c)) = chShapeOk m slots := by
  simp only [chShapeOk, List.all_map, pairwiseDisjoint_map_updSlot]
  congr 1
  exact list_all_congr (fun s _ => slotShapeOk_updSlot c m s)

theorem map_updSlot_eq_self (c : ScanCtx) (m : Int) (hap : c.activePattern ≠ m) :
    ∀ slots : List Slot, slots.all (slotShapeOk m) = true →
      slots.map (updSlot c) = slots := by
  intro slots
  induction slots with
  | nil => intro _; rfl
  | cons s rest ih =>
    intro h
    rw [List.all_cons, Bool.and_eq_true] at h
    obtain ⟨hs, hrest⟩ := h
    rw [List.map_cons, ih hrest]
    congr 1
    cases s with
    | none => rfl
    | some e =>
      simp only [slotShapeOk, Bool.and_eq_true, Bool.not_eq_true', beq_iff_eq] at hs
      have hne : e.seq.startMeasure ≠ c.activePattern := by
        rw [hs.2]; exact fun hh => hap hh.symm
      simp [updSlot, updEvent_skip c e (Or.inr hne)]

theorem playingCount_map_le_one (c : ScanCtx) (m : Int) (hap : c.activePattern = m) :
    ∀ slots : List Slot, chShapeOk m slots = true →
      playingCount (slots.map (updSlot c)) ≤ 1 := by
  intro slots
  induction slots with
  | nil => intro _; simp [playingCount]
  | cons s rest ih =>
    intro h
    rw [chShapeOk, Bool.and_eq_true] at h
    obtain ⟨hall, hpw⟩ := h
    rw [List.all_cons, Bool.and_eq_true] at hall
    obtain ⟨hs, hall⟩ := hall
    rw [pairwiseDisjoint, Bool.and_eq_true] at hpw
    obtain ⟨hdisj, hpw⟩ := hpw
    have hrest_ok : chShapeOk m rest = true := by
      rw [chShapeOk, Bool.and_eq_true]; exact ⟨hall, hpw⟩
    have ihr := ih hrest_ok
    rw [List.map_cons, playingCount, List.countP_cons]
    rw [playingCount] at ihr
    cases s with
    | none =>
      simpa [updSlot, slotPlaying] using ihr
    | some e =>
      simp only [slotShapeOk, Bool.and_eq_true, Bool.not_eq_true', beq_iff_eq] at hs
      have hsm : e.seq.startMeasure = c.activePattern := by rw [hs.2, hap]
      by_cases hin : c.compareTime ≥ e.seq.startMeasureOffset ∧
          c.compareTime < e.seq.startMeasureOffset + e.seq.length
      · have hcount0 : (rest.map (updSlot c)).countP slotPlaying = 0 := by
          rw [List.countP_eq_zero]
          intro t ht
          rw [List.mem_map] at ht
          obtain ⟨u, hu, rfl⟩ := ht
          cases u with
          | none => simp [updSlot, slotPlaying]
          | some f =>
            have hf : slotShapeOk m (some f) = true := by
              rw [List.all_eq_true] at hall; exact hall _ hu
            simp only [slotShapeOk, Bool.and_eq_true, Bool.not_eq_true',
              beq_iff_eq] at hf
            have hfsm : f.seq.startMeasure = c.activePattern := by rw [hf.2, hap]
            have hd : slotsDisjoint (some e) (some f) = true := by
              rw [List.all_eq_true] at hdisj; exact hdisj _ hu
            simp only [slotsDisjoint, decide_eq_true_eq] at hd
            have hfout : ¬ (c.compareTime ≥ f.seq.startMeasureOffset ∧
                c.compareTime < f.seq.startMeasureOffset + f.seq.length) := by
              rcases hd with hd | hd
              · intro hcon; linarith [hin.1, hin.2, hcon.1, hcon.2]
              · intro hcon; linarith [hin.1, hin.2, hcon.1, hcon.2]
            simp only [updSlot, slotPlaying]
            rw [Bool.not_eq_true, ← Bool.not_eq_true]
            intro hcon
            exact hfout ((updEvent_playing_iff c f hf.1 hfsm).mp hcon)
        rw [hcount0]
        have : slotPlaying (updSlot c (some e)) = true := by
          simp only [updSlot, slotPlaying]
          exact (updEvent_playing_iff c e hs.1 hsm).mpr hin
        rw [this]
        simp
      · have : slotPlaying (updSlot c (some e)) = false := by
          simp only [updSlot, slotPlaying]
          rw [← Bool.not_eq_true]
          intro hcon
          exact hin ((updEvent_playing_iff c e hs.1 hsm).mp hcon)
        rw [this]
        simpa using ihr


theorem scanChannel_invariant (c : ScanCtx) (m : Int) (slots : List Slot)
    (q : List Event) (hsh : chShapeOk m slots = true)
    (hc : playingCount slots ≤ 1) :
    chShapeOk m (scanChannel c slots q).1 = true ∧
    playingCount (scanChannel c slots q).1 ≤ 1 := by
  rw [scanChannel_fst]
  refine ⟨by rw [chShapeOk_map_updSlot]; exact hsh, ?_⟩
  by_cases hap : c.activePattern = m
  · exact playingCount_map_le_one c m hap slots hsh
  · have hall : slots.all (slotShapeOk m) = true := by
      rw [chShapeOk, Bool.and_eq_true] at hsh; exact hsh.1
    rw [map_updSlot_eq_self c m hap slots hall]
    exact hc

/-- C1 (amended): for a channel whose events are non-recording, all belong
to measure `m`, and have pairwise disjoint trigger ranges, any sequence of
collect scans (each with an arbitrary store snapshot) leaves at most one
event with `seq.playing = true`, provided at most one was playing at the
start.  The disjointness proviso is forced by the counterexample: the
queue-drain noteOffs never clear `seq.playing` (the clearing timer in
`dequeueEvent` is commented out), so overlapping ranges yield two playing
events within one scan. -/
theorem C1_monophony_disjoint (m : Int) :
    ∀ (cs : List ScanCtx) (slots : List Slot) (q : List Event),
      chShapeOk m slots = true → playingCount slots ≤ 1 →
      playingCount (applyScans cs (slots, q)).1 ≤ 1 := by
  intro cs
  induction cs with
  | nil => intro slots q _ hc; simpa [applyScans] using hc
  | cons c cs ih =>
    intro slots q hsh hc
    obtain ⟨h1, h2⟩ := scanChannel_invariant c m slots q hsh hc
    have heq : applyScans (c :: cs) (slots, q) =
        applyScans cs ((scanChannel c slots q).1, (scanChannel c slots q).2.1) := by
      simp [applyScans]
    rw [heq]
    exact ih _ _ h1 h2

theorem C1_monophony_disjoint_witness :
    chShapeOk 0 singleChannel = true ∧ playingCount singleChannel ≤ 1 ∧
    playingCount (applyScans [overlapCtx, overlapCtx] (singleChannel, [])).1 ≤ 1 :=
  ⟨by decide, by decide,
    C1_monophony_disjoint 0 [overlapCtx, overlapCtx] singleChannel []
      (by decide) (by decide)⟩


theorem rat_natCast_div_of_dvd (a b : Nat) (hb : 0 < b) (h : b ∣ a) :
    (a : ℚ) / (b : ℚ) = ((a / b : ℕ) : ℚ) := by
  obtain ⟨k, rfl⟩ := h
  have hb' : (b : ℚ) ≠ 0 := Nat.cast_ne_zero.mpr hb.ne'
  rw [Nat.mul_div_cancel_left k hb]
  push_cast
  field_simp

theorem rat_natCast_div_den_eq_one_iff (a b : Nat) (hb : 0 < b) :
    ((a : ℚ) / (b : ℚ)).den = 1 ↔ b ∣ a := by
  constructor
  · intro hden
    have hb' : (b : ℚ) ≠ 0 := Nat.cast_ne_zero.mpr hb.ne'
    have hnum : ((((a : ℚ) / (b : ℚ)).num : ℚ)) = (a : ℚ) / (b : ℚ) :=
      Rat.coe_int_num_of_den_eq_one hden
    have hmul : ((((a : ℚ) / (b : ℚ)).num : ℚ)) * (b : ℚ) = (a : ℚ) := by
      rw [hnum]
      exact div_mul_cancel₀ _ hb'
    have hint : (((a : ℚ) / (b : ℚ)).num) * (b : ℤ) = (a : ℤ) := by
      exact_mod_cast hmul
    have : (b : ℤ) ∣ (a : ℤ) := Dvd.intro_left _ hint
    exact Int.natCast_dvd_natCast.mp this
  · intro h
    rw [rat_natCast_div_of_dvd a b hb h]
    exact Rat.den_natCast _

theorem jsArrGetQ_mul_div (l : List Slot) (i M N : Nat) (hN : 0 < N) :
    jsArrGetQ l ((i : ℚ) * ((M : ℚ) / (N : ℚ))) =
      if N ∣ i * M then (l.get? (i * M / N)).join else none := by
  have heq : (i : ℚ) * ((M : ℚ) / (N : ℚ)) = ((i * M : ℕ) : ℚ) / (N : ℚ) := by
    push_cast; ring
  rw [heq]
  by_cases h : N ∣ i * M
  · rw [if_pos h, rat_natCast_div_of_dvd _ _ hN h, jsArrGetQ, Rat.num_natCast,
      Rat.den_natCast, if_pos ⟨rfl, Int.natCast_nonneg _⟩, Int.toNat_natCast]
  · rw [if_neg h, jsArrGetQ, if_neg]
    intro hcon
    exact h ((rat_natCast_div_den_eq_one_iff _ _ hN).mp hcon.1)

theorem jsArrSetQ_mul_div (t : List Slot) (v : Slot) (i N M : Nat) (hM : 0 < M) :
    jsArrSetQ t ((i : ℚ) * ((N : ℚ) / (M : ℚ))) v =
      if M ∣ i * N then t.set (i * N / M) v else t := by
  have heq : (i : ℚ) * ((N : ℚ) / (M : ℚ)) = ((i * N : ℕ) : ℚ) / (M : ℚ) := by
    push_cast; ring
  rw [heq]
  by_cases h : M ∣ i * N
  · rw [if_pos h, rat_natCast_div_of_dvd _ _ hM h, jsArrSetQ, Rat.num_natCast,
      Rat.den_natCast, if_pos ⟨rfl, Int.natCast_nonneg _⟩, Int.toNat_natCast]
  · rw [if_neg h, jsArrSetQ, if_neg]
    intro hcon
    exact h ((rat_natCast_div_den_eq_one_iff _ _ hM).mp hcon.1)

theorem foldl_set_length (f : ℕ → Slot) :
    ∀ (l : List ℕ) (init : List Slot),
      ((l.foldl (fun t i => t.set i (f i)) init)).length = init.length := by
  intro l
  induction l with
  | nil => intro init; rfl
  | cons a l ih => intro init; rw [List.foldl_cons, ih, List.length_set]

theorem foldl_set_range_get (f : ℕ → Slot) :
    ∀ (n : ℕ) (init : List Slot), n ≤ init.length → ∀ j : ℕ,
      ((List.range n).foldl (fun t i => t.set i (f i)) init).get? j =
        if j < n then some (f j) else init.get? j := by
  intro n
  induction n with
  | zero => intro init _ j; simp [List.range_zero]
  | succ n ih =>
    intro init hn j
    rw [List.range_succ, List.foldl_append, List.foldl_cons, List.foldl_nil]
    have hlen : ((List.range n).foldl (fun t i => t.set i (f i)) init).length =
        init.length := foldl_set_length f _ init
    by_cases hj : j = n
    · subst hj
      rw [List.get?_eq_getElem?,
        List.getElem?_set_eq_of_lt (f j) (by rw [hlen]; omega), if_pos (by omega)]
    · rw [List.get?_eq_getElem?, List.getElem?_set_ne (fun hc => hj hc.symm),
        ← List.get?_eq_getElem?, ih init (by omega) j]
      by_cases hjn : j < n
      · rw [if_pos hjn, if_pos (by omega)]
      · rw [if_neg hjn, if_neg (by omega)]


/-- C4 (amended): decimating a channel from `M` to `N < M` steps yields a
length-`N` channel with `new[i] = old[i*M/N]` exactly when `N` divides
`i*M` (for every `i` when `N ∣ M`, matching the claimed
`new[i] = old[i*(M/N)]`); when `i*(M/N)` is fractional the slot is empty,
because the source divides without truncating and a fractional JS array
read is `undefined`. -/
theorem C4_decimate (M N : Nat) (channel : List Slot) (hNM : N < M)
    (hN : 0 < N) :
    (transformChannel M N channel).length = N ∧
    (∀ i : Nat, i < N → N ∣ i * M →
      (transformChannel M N channel).get? i =
        some ((channel.get? (i * M / N)).join)) ∧
    (∀ i : Nat, i < N → ¬ N ∣ i * M →
      (transformChannel M N channel).get? i = some none) := by
  have hdef : transformChannel M N channel =
      (List.range N).foldl
        (fun t i => t.set i (jsArrGetQ channel ((i : ℚ) * ((M : ℚ) / (N : ℚ)))))
        (List.replicate N none) := by
    simp [transformChannel, hNM]
  have hget := foldl_set_range_get
    (fun i => jsArrGetQ channel ((i : ℚ) * ((M : ℚ) / (N : ℚ)))) N
    (List.replicate N none) (by simp) 
  refine ⟨?_, ?_, ?_⟩
  · rw [hdef, foldl_set_length, List.length_replicate]
  · intro i hi hdvd
    rw [hdef, hget i, if_pos hi]
    simp only [jsArrGetQ_mul_div channel i M N hN]
    rw [if_pos hdvd]
  · intro i hi hdvd
    rw [hdef, hget i, if_pos hi]
    simp only [jsArrGetQ_mul_div channel i M N hN]
    rw [if_neg hdvd]

theorem C4_decimate_witness :
    (transformChannel 16 8 sixChannel).length = 8 ∧
    ((8 : Nat) ∣ 2 * 16 ∧ 2 < 8 ∧
      (transformChannel 16 8 sixChannel).get? 2 =
        some ((sixChannel.get? (2 * 16 / 8)).join)) ∧
    (¬ (4 : Nat) ∣ 1 * 6 ∧ 1 < 4 ∧
      (transformChannel 6 4 sixChannel).get? 1 = some none) :=
  ⟨(C4_decimate 16 8 sixChannel (by decide) (by decide)).1,
   ⟨by decide, by decide,
    (C4_decimate 16 8 sixChannel (by decide) (by decide)).2.1 2 (by decide)
      (by decide)⟩,
   ⟨by decide, by decide,
    (C4_decimate 6 4 sixChannel (by decide) (by decide)).2.2 1 (by decide)
      (by decide)⟩⟩


theorem exact_div_lt_of_lt (i i2 N M : Nat) (hN : 0 < N) (hi : i < i2)
    (d1 : M ∣ i * N) (d2 : M ∣ i2 * N) (hM : 0 < M) :
    i * N / M < i2 * N / M := by
  have h1 : i * N / M * M = i * N := Nat.div_mul_cancel d1
  have h2 : i2 * N / M * M = i2 * N := Nat.div_mul_cancel d2
  by_contra hcon
  push_neg at hcon
  have hle : i2 * N ≤ i * N := by
    calc i2 * N = i2 * N / M * M := h2.symm
    _ ≤ i * N / M * M := Nat.mul_le_mul_right M hcon
    _ = i * N := h1
  have : i * N < i2 * N := (Nat.mul_lt_mul_right hN).mpr hi
  omega

theorem foldl_jsArrSetQ_length (g : ℕ → Slot) (inc : ℚ) :
    ∀ (l : List ℕ) (init : List Slot),
      ((l.foldl (fun t (i : ℕ) => jsArrSetQ t ((i : ℚ) * inc) (g i)) init)).length =
        init.length := by
  intro l
  induction l with
  | nil => intro init; rfl
  | cons a l ih =>
    intro init
    rw [List.foldl_cons, ih, jsArrSetQ]
    split
    · rw [List.length_set]
    · rfl

theorem expandFold_spec (N M : Nat) (hM : 0 < M) (hMN : M ≤ N) (g : ℕ → Slot) :
    ∀ (m : ℕ) (init : List Slot), m ≤ M → init.length = N →
      (∀ i : ℕ, i < m → M ∣ i * N →
        ((List.range m).foldl
          (fun t (i : ℕ) => jsArrSetQ t ((i : ℚ) * ((N : ℚ) / (M : ℚ))) (g i))
          init).get? (i * N / M) = some (g i)) ∧
      (∀ j : ℕ, (∀ i : ℕ, i < m → M ∣ i * N → j ≠ i * N / M) →
        ((List.range m).foldl
          (fun t (i : ℕ) => jsArrSetQ t ((i : ℚ) * ((N : ℚ) / (M : ℚ))) (g i))
          init).get? j = init.get? j) := by
  have hN : 0 < N := lt_of_lt_of_le hM hMN
  intro m
  induction m with
  | zero =>
    intro init _ _
    refine ⟨fun i hi _ => absurd hi (by omega), fun j _ => ?_⟩
    simp [List.range_zero]
  | succ m ih =>
    intro init hm hlen
    obtain ⟨ih1, ih2⟩ := ih init (by omega) hlen
    have hfold : (List.range (m + 1)).foldl
        (fun t (i : ℕ) => jsArrSetQ t ((i : ℚ) * ((N : ℚ) / (M : ℚ))) (g i)) init =
      jsArrSetQ ((List.range m).foldl
        (fun t (i : ℕ) => jsArrSetQ t ((i : ℚ) * ((N : ℚ) / (M : ℚ))) (g i)) init)
        ((m : ℚ) * ((N : ℚ) / (M : ℚ))) (g m) := by
      rw [List.range_succ, List.foldl_append, List.foldl_cons, List.foldl_nil]
    have hlen2 : ((List.range m).foldl
        (fun t (i : ℕ) => jsArrSetQ t ((i : ℚ) * ((N : ℚ) / (M : ℚ))) (g i))
        init).length = N := by
      rw [foldl_jsArrSetQ_length, hlen]
    rw [hfold, jsArrSetQ_mul_div _ _ m N M hM]
    by_cases hdm : M ∣ m * N
    · rw [if_pos hdm]
      have hpm : m * N / M < N := by
        have hmul : m * N / M * M = m * N := Nat.div_mul_cancel hdm
        have : m * N < N * M := by
          have : m < M := by omega
          calc m * N < M * N := (Nat.mul_lt_mul_right hN).mpr this
          _ = N * M := Nat.mul_comm M N
        by_contra hcon
        push_neg at hcon
        have : N * M ≤ m * N / M * M := Nat.mul_le_mul_right M hcon
        omega
      constructor
      · intro i hi hdvd
        by_cases him : i = m
        · subst him
          rw [List.get?_eq_getElem?,
            List.getElem?_set_eq_of_lt (g i) (by rw [hlen2]; exact hpm)]
        · have hil : i < m := by omega
          have hne : i * N / M ≠ m * N / M :=
            Nat.ne_of_lt (exact_div_lt_of_lt i m N M hN hil hdvd hdm hM)
          rw [List.get?_eq_getElem?, List.getElem?_set_ne (fun hc => hne hc.symm),
            ← List.get?_eq_getElem?]
          exact ih1 i hil hdvd
      · intro j hj
        have hne : j ≠ m * N / M := hj m (by omega) hdm
        rw [List.get?_eq_getElem?, List.getElem?_set_ne (fun hc => hne hc.symm),
          ← List.get?_eq_getElem?]
        exact ih2 j (fun i hi hd => hj i (by omega) hd)
    · rw [if_neg hdm]
      constructor
      · intro i hi hdvd
        have hil : i < m := by
          rcases Nat.lt_succ_iff_lt_or_eq.mp hi with h | h
          · exact h
          · subst h; exact absurd hdvd hdm
        exact ih1 i hil hdvd
      · intro j hj
        exact ih2 j (fun i hi hd => hj i (by omega) hd)


/-- C5 (amended): expanding a channel from `M` to `N ≥ M` steps yields a
length-`N` channel; `old[i]` lands at `new[i*N/M]` exactly when `M`
divides `i*N` (for every `i` when `M ∣ N`, matching the claimed
`new[i*k] = old[i]`), writes at fractional indices are lost, the
remaining slots stay empty, and `N = M` leaves the channel unchanged. -/
theorem C5_expand (M N : Nat) (channel : List Slot) (hMN : M ≤ N)
    (hM : 0 < M) :
    (transformChannel M N channel).length = N ∧
    (∀ i : Nat, i < M → M ∣ i * N →
      (transformChannel M N channel).get? (i * N / M) =
        some ((channel.get? i).join)) ∧
    (∀ j : Nat, j < N → (∀ i : Nat, i < M → M ∣ i * N → j ≠ i * N / M) →
      (transformChannel M N channel).get? j = some none) ∧
    (N = M → channel.length = M → transformChannel M N channel = channel) := by
  have hnlt : ¬ N < M := Nat.not_lt.mpr hMN
  have hdef : transformChannel M N channel =
      (List.range M).foldl
        (fun t (i : ℕ) =>
          jsArrSetQ t ((i : ℚ) * ((N : ℚ) / (M : ℚ))) ((channel.get? i).join))
        (List.replicate N none) := by
    simp [transformChannel, hnlt]
  obtain ⟨hp1, hp2⟩ := expandFold_spec N M hM hMN
    (fun i => (channel.get? i).join) M (List.replicate N none) le_rfl (by simp)
  refine ⟨?_, ?_, ?_, ?_⟩
  · rw [hdef, foldl_jsArrSetQ_length, List.length_replicate]
  · intro i hi hd
    rw [hdef]
    exact hp1 i hi hd
  · intro j hjN hj
    rw [hdef, hp2 j hj, List.get?_eq_getElem?, List.getElem?_replicate, if_pos hjN]
  · intro hNM2 hchlen
    subst hNM2
    have hlenr : (transformChannel N N channel).length = N := by
      rw [hdef, foldl_jsArrSetQ_length, List.length_replicate]
    apply List.ext_get?
    intro n
    by_cases hn : n < N
    · have hd : N ∣ n * N := Nat.dvd_mul_left N n
      have heq := hp1 n hn hd
      rw [Nat.mul_div_left n hM] at heq
      rw [hdef, heq]
      have hlt : n < channel.length := by rw [hchlen]; exact hn
      obtain ⟨s, hs⟩ : ∃ s, channel.get? n = some s := by
        rw [List.get?_eq_getElem?]
        exact ⟨channel[n], List.getElem?_eq_getElem hlt⟩
      rw [hs]
      rfl
    · have h1 : (transformChannel N N channel).get? n = none :=
        List.get?_eq_none.mpr (by rw [hlenr]; omega)
      have h2 : channel.get? n = none :=
        List.get?_eq_none.mpr (by rw [hchlen]; omega)
      rw [h1, h2]


theorem C5_expand_witness :
    (transformChannel 16 32 fourChannel).length = 32 ∧
    (transformChannel 4 6 fourChannel).get? (2 * 6 / 4) =
      some ((fourChannel.get? 2).join) ∧
    (transformChannel 4 6 fourChannel).get? 1 = some none ∧
    transformChannel 4 4 fourChannel = fourChannel :=
  ⟨(C5_expand 16 32 fourChannel (by decide) (by decide)).1,
   (C5_expand 4 6 fourChannel (by decide) (by decide)).2.1 2 (by decide) (by decide),
   (C5_expand 4 6 fourChannel (by decide) (by decide)).2.2.1 1 (by decide)
     (by intro i hi hd; omega),
   (C5_expand 4 4 fourChannel (by decide) (by decide)).2.2.2 rfl (by decide)⟩


end Sequencer
